import Mathlib

/-!
Verification development for the Checkmate camera-calibration pipeline.

The source is shallowly embedded: pixel coordinates and matrix entries are
exact rationals, the C++ vectors are Lean lists, and the OpenCV collaborators
(solvePnP, Rodrigues, projectPoints, norm, mean over a region of interest,
calibrateCamera) are abstract function parameters gathered in environment
structures, as the specification treats them as external black boxes.
-/

namespace Checkmate

/-- A 2D point with exact rational coordinates, modelling cv Point2f. -/
abbrev Point := ℚ × ℚ

/-- A 3D point with exact rational coordinates, modelling cv Point3f. -/
abbrev Point3 := ℚ × ℚ × ℚ

/-- Componentwise sum of two 2D points, modelling operator+ on cv Point2f. -/
def ptAdd (p q : Point) : Point := (p.1 + q.1, p.2 + q.2)

/-- Componentwise difference of two 2D points, modelling operator- on cv Point2f. -/
def ptSub (p q : Point) : Point := (p.1 - q.1, p.2 - q.2)

/-- Division of a 2D point by a scalar, modelling operator/ on cv Point2f. -/
def ptDiv (p : Point) (c : ℚ) : Point := (p.1 / c, p.2 / c)

/-- The Chessboard class (chessboard.hpp): number of inner corners along X,
number of inner corners along Y, physical square size.  The corner counts are
integers exactly as in the source. -/
structure Chessboard where
  cornersX : ℤ
  cornersY : ℤ
  squareSize : ℚ

/-- Chessboard::generate_object_points (chessboard.cpp, lines 184-192):
two nested loops, y from 0 below cornersY (outer) and x from 0 below cornersX
(inner), emitting the 3D point (y*square_size, x*square_size, 0).  A
non-positive corner count makes the corresponding C++ loop run zero times,
which Int.toNat reproduces. -/
def generate_object_points (d : Chessboard) : List Point3 :=
  (List.range d.cornersY.toNat).flatMap fun (y : ℕ) =>
    (List.range d.cornersX.toNat).map fun (x : ℕ) =>
      ((y : ℚ) * d.squareSize, (x : ℚ) * d.squareSize, 0)

/-- Chessboard::reorder_corners (chessboard.cpp, lines 51-70): walk the grid
with a direction per axis chosen from the a1 index and read the input at
row * cornersX + col.  The C++ indexing into the vector is modelled with getD
and a junk default; for the lengths the claims quantify over, the index is
always in range and the default is never read. -/
def reorder_corners (d : Chessboard) (corners : List Point) (a1Index : ℤ) : List Point :=
  let stepX : ℤ := if a1Index = 0 ∨ a1Index = 2 then 1 else -1
  let stepY : ℤ := if a1Index = 0 ∨ a1Index = 1 then 1 else -1
  let startY : ℤ := if stepY = 1 then 0 else d.cornersY - 1
  let startX : ℤ := if stepX = 1 then 0 else d.cornersX - 1
  (List.range d.cornersY.toNat).flatMap fun (y : ℕ) =>
    (List.range d.cornersX.toNat).map fun (x : ℕ) =>
      corners.getD ((startY + (y : ℤ) * stepY) * d.cornersX + (startX + (x : ℤ) * stepX)).toNat
        ((0 : ℚ), (0 : ℚ))

/-- The Calibrator class state (calibrator.hpp, lines 64-72): mean
reprojection error, camera matrix (none models an empty cv Mat), distortion
coefficients, and the two parallel sample vectors.  The image size argument
of calibrate is a pair of integers. -/
structure Calibrator where
  reprojError : ℚ
  cameraMatrix : Option (List (List ℚ))
  distCoeffs : List ℚ
  imagePoints : List (List Point)
  objectPoints : List (List Point3)

/-- Calibrator::Calibrator (calibrator.cpp, lines 14-17): empty camera matrix,
5x1 zero distortion vector; reproj_error_ starts at 0.0 by its member
initializer (calibrator.hpp, line 65); the sample vectors start empty. -/
def Calibrator.init : Calibrator :=
  ⟨0, none, List.replicate 5 0, [], []⟩

/-- Calibrator::add_sample (calibrator.cpp, lines 25-28): push_back the image
points and the object points onto the two parallel vectors. -/
def add_sample (c : Calibrator) (imagePts : List Point) (objectPts : List Point3) : Calibrator :=
  { c with imagePoints := c.imagePoints ++ [imagePts],
           objectPoints := c.objectPoints ++ [objectPts] }

/-- The number of accumulated samples (the SampleStore count of the spec):
the length of the image-point vector. -/
def Calibrator.count (c : Calibrator) : ℕ := c.imagePoints.length

/-- Output of the external batch solver cv::calibrateCamera: the returned
mean reprojection error, the computed camera matrix and distortion
coefficients, and the per-view rotation and translation vectors. -/
structure CalibOut where
  err : ℚ
  K : List (List ℚ)
  dist : List ℚ
  rvecs : List (List ℚ)
  tvecs : List (List ℚ)

/-- The external batch calibration solver, abstracted: cv::calibrateCamera
as a function of the object-point sets, the image-point sets and the image
size.  (Without an intrinsic-guess flag the solver overwrites, and does not
read, the camera matrix and distortion arguments, so they are not inputs.) -/
structure CalibEnv where
  calibrateCamera : List (List Point3) → List (List Point) → ℤ × ℤ → CalibOut

/-- Calibrator::calibrate (calibrator.cpp, lines 37-47): return false when
either sample vector is empty; otherwise run the external solver, store the
camera matrix, the distortion coefficients and the returned error, discard
the local rvecs and tvecs, and return true. -/
def calibrate (env : CalibEnv) (c : Calibrator) (imageSize : ℤ × ℤ) : Calibrator × Bool :=
  if c.imagePoints = [] ∨ c.objectPoints = [] then (c, false)
  else
    let out := env.calibrateCamera c.objectPoints c.imagePoints imageSize
    ({ c with cameraMatrix := some out.K, distCoeffs := out.dist, reprojError := out.err }, true)

/-- The state-changing operations a calibration session performs on the
Calibrator (save and the getters are const and do not touch the state). -/
inductive CalOp where
  | addSample (imagePts : List Point) (objectPts : List Point3)
  | runCalibrate (env : CalibEnv) (imageSize : ℤ × ℤ)
  | save

/-- Apply one session operation to the Calibrator state. -/
def applyOp (c : Calibrator) : CalOp → Calibrator
  | .addSample i o => add_sample c i o
  | .runCalibrate env sz => (calibrate env c sz).1
  | .save => c

/-- The grayscale image as seen by the brightness-sampling code: its pixel
dimensions, and the external computation cv::mean over the 5x5 region of
interest anchored two pixels up and left of a given point (the sampling of
pixel data is outside the embedded core). -/
structure GrayEnv where
  cols : ℤ
  rows : ℤ
  mean5 : Point → ℚ

/-- The in-bounds test of the outer-corner sampling loops (chessboard.cpp
line 155, and the identical test in main.cpp line 174): the loop skips a
point when pt.x is below 2, pt.y is below 2, pt.x exceeds cols - 3 or pt.y
exceeds rows - 3; inBounds is the negation of that skip condition. -/
def inBounds (g : GrayEnv) (p : Point) : Prop :=
  ¬ (p.1 < 2 ∨ p.2 < 2 ∨ p.1 > (g.cols : ℚ) - 3 ∨ p.2 > (g.rows : ℚ) - 3)

instance (g : GrayEnv) (p : Point) : Decidable (inBounds g p) := by
  unfold inBounds; exact inferInstance

/-- The four extrapolated outer-corner positions.  This computation appears
verbatim in Chessboard::find_a1_index (chessboard.cpp lines 84-98),
Chessboard::find_a1_candidates (lines 134-146) and the find_best_pose lambda
(main.cpp lines 157-169): read the four extreme grid corners, form the
per-square steps dx and dy, and extrapolate half a step beyond each extreme
corner along both axes. -/
def outer_corners (d : Chessboard) (corners : List Point) : List Point :=
  let tl := corners.getD 0 ((0:ℚ), (0:ℚ))
  let tr := corners.getD (d.cornersX - 1).toNat ((0:ℚ), (0:ℚ))
  let bl := corners.getD ((d.cornersY - 1) * d.cornersX).toNat ((0:ℚ), (0:ℚ))
  let br := corners.getD (d.cornersY * d.cornersX - 1).toNat ((0:ℚ), (0:ℚ))
  let dx := ptDiv (ptSub tr tl) ((d.cornersX : ℚ) - 1)
  let dy := ptDiv (ptSub bl tl) ((d.cornersY : ℚ) - 1)
  [ptSub (ptSub tl (ptDiv dx 2)) (ptDiv dy 2),
   ptSub (ptAdd tr (ptDiv dx 2)) (ptDiv dy 2),
   ptAdd (ptSub bl (ptDiv dx 2)) (ptDiv dy 2),
   ptAdd (ptAdd br (ptDiv dx 2)) (ptDiv dy 2)]

/-- The per-outer-corner brightness values: 1e6 sentinel for a position that
fails the bounds test, otherwise the mean of its 5x5 region of interest.
This is the vals array of chessboard.cpp lines 148-165 and the outer_vals
array of main.cpp lines 171-180. -/
def outer_vals (d : Chessboard) (g : GrayEnv) (corners : List Point) : List ℚ :=
  (outer_corners d corners).map fun pt => if inBounds g pt then g.mean5 pt else 1000000

/-- Chessboard::find_a1_candidates (chessboard.cpp, lines 130-176): sample
the four outer positions, take the minimum of the sampled values, and keep
the indices whose value is below that minimum plus 10.  The source updates
min_val only for sampled positions, starting from 1e6; folding min over the
full vals array with the same 1e6 start is the same value, because the
unsampled entries equal the 1e6 starting accumulator. -/
def find_a1_candidates (d : Chessboard) (g : GrayEnv) (corners : List Point) : List ℕ :=
  let vals := outer_vals d g corners
  let minVal := vals.foldl min 1000000
  (List.range 4).filter fun i => vals.getD i 1000000 < minVal + 10

/-- The external perspective-pose collaborators used per candidate in the
find_best_pose lambda: cv::solvePnP (convergence flag plus rvec and tvec),
the entry at row index 2 and column index 2 of the cv::Rodrigues rotation
matrix of an rvec, cv::projectPoints, and cv::norm of a 2D point difference.
All receive the camera matrix and the zero distortion vector as the source
passes them. -/
structure PnPEnv where
  solvePnP : List Point3 → List Point → List (List ℚ) → List ℚ → Bool × List ℚ × List ℚ
  rodrigues22 : List ℚ → ℚ
  projectPoints : List Point3 → List ℚ → List ℚ → List (List ℚ) → List ℚ → List Point
  norm : Point → ℚ

/-- The provisional camera matrix built in main.cpp lines 189-194 (and in
the make_camera_matrix lambda, lines 133-140): identity with focal entries
1000 and principal point at half the frame dimensions. -/
def mkCameraMatrix (w h : ℤ) : List (List ℚ) :=
  [[1000, 0, (w : ℚ) / 2], [0, 1000, (h : ℚ) / 2], [0, 0, 1]]

/-- One orientation candidate as evaluated by the loop body of
find_best_pose (main.cpp lines 198-226): the reordered corners, the solver
outputs, the convergence flag, the rotation entry R(2,2), the final validity
flag z_ok, and the mean reprojection error (1e9 when not computed). -/
structure Candidate where
  testCorners : List Point
  rvec : List ℚ
  tvec : List ℚ
  pnpOk : Bool
  r22 : ℚ
  zOk : Bool
  reprojErr : ℚ

/-- The loop body of find_best_pose for one a1 index (main.cpp lines
198-226): reorder the corners, generate object points, solve the pose, read
R(2,2), gate on convergence and positive R(2,2), then compute the mean
reprojection error (the sum over the projected points of the norm of the
difference with the test corner at the same index, divided by the number of
projected points) and clear z_ok when that error exceeds 15.0. -/
def candidate (d : Chessboard) (env : PnPEnv) (K : List (List ℚ)) (dist : List ℚ)
    (corners : List Point) (a1Index : ℤ) : Candidate :=
  let testCorners := reorder_corners d corners a1Index
  let objPts := generate_object_points d
  let sp := env.solvePnP objPts testCorners K dist
  let pnpOk := sp.1
  let rvec := sp.2.1
  let tvec := sp.2.2
  let r22 := env.rodrigues22 rvec
  let zOk0 := pnpOk && decide (0 < r22)
  if zOk0 then
    let projPts := env.projectPoints objPts rvec tvec K dist
    let errSum := ((List.range projPts.length).map fun i =>
      env.norm (ptSub (projPts.getD i ((0:ℚ), (0:ℚ))) (testCorners.getD i ((0:ℚ), (0:ℚ))))).sum
    let reprojErr := errSum / (projPts.length : ℚ)
    if reprojErr > 15 then ⟨testCorners, rvec, tvec, pnpOk, r22, false, reprojErr⟩
    else ⟨testCorners, rvec, tvec, pnpOk, r22, zOk0, reprojErr⟩
  else ⟨testCorners, rvec, tvec, pnpOk, r22, zOk0, 1000000000⟩

/-- The running best of the candidate loop: best_reproj_err, best_a1,
best_corners, best_rvec, best_tvec (main.cpp lines 182-186; none models a
released cv::Mat). -/
structure SelState where
  err : ℚ
  a1 : ℤ
  corners : List Point
  rvec : Option (List ℚ)
  tvec : Option (List ℚ)

/-- The initial running best (main.cpp lines 182-186): error 1e9, index -1,
cleared corners, released rvec and tvec. -/
def selInit : SelState := ⟨1000000000, -1, [], none, none⟩

/-- The update at the end of the candidate loop body (main.cpp lines
236-242): replace the running best exactly when z_ok holds and the new
error is strictly below the running best error. -/
def selStep (f : ℤ → Candidate) (st : SelState) (k : ℤ) : SelState :=
  let c := f k
  if c.zOk = true ∧ c.reprojErr < st.err then ⟨c.reprojErr, k, c.testCorners, some c.rvec, some c.tvec⟩
  else st

/-- The outputs of the find_best_pose lambda (its reference parameters). -/
structure BestPose where
  outerVals : List ℚ
  bestCorners : List Point
  bestRvec : Option (List ℚ)
  bestTvec : Option (List ℚ)
  bestA1 : ℤ
  bestReprojErr : ℚ

/-- The find_best_pose lambda of main.cpp (lines 148-244): sample the outer
brightness values for diagnostics, build the provisional camera matrix from
the frame dimensions with zero distortion, and fold the candidate update
over the fixed enumeration 0, 1, 2, 3 of a1 indices starting from the
initial running best.  The source lambda reads the grid dimensions from the
CORNERS_X and CORNERS_Y constants (7 and 7), which equal the fields of the
detector it captures; here they are read from the detector fields. -/
def find_best_pose (d : Chessboard) (env : PnPEnv) (g : GrayEnv)
    (frameCols frameRows : ℤ) (corners : List Point) : BestPose :=
  let vals := outer_vals d g corners
  let K := mkCameraMatrix frameCols frameRows
  let dist := List.replicate 5 (0 : ℚ)
  let final := [(0:ℤ), 1, 2, 3].foldl (selStep (candidate d env K dist corners)) selInit
  ⟨vals, final.corners, final.rvec, final.tvec, final.a1, final.err⟩

/-- The per-frame acceptance step of main (main.cpp lines 293-301): when
find_best_pose reports best_a1 = -1 the frame is rejected and the calibrator
is untouched; otherwise the best corners and freshly generated object points
are added as one sample. -/
def accept_frame (d : Chessboard) (cal : Calibrator) (res : BestPose) : Calibrator :=
  if res.bestA1 = -1 then cal
  else add_sample cal res.bestCorners (generate_object_points d)

/-- Proof-side index transformer: the row-major position a grid walk visits,
as a function of a row relabeling and a column relabeling. -/
def gridIdx (c : ℕ) (rho gamma : ℕ → ℕ) (i : ℕ) : ℕ := rho (i / c) * c + gamma (i % c)

/-- Proof-side row relabeling of reorder_corners for a given a1 index:
identity when step_y is 1 (indices 0 and 1), reversal otherwise. -/
def rowMap (rows : ℕ) (k : ℤ) : ℕ → ℕ :=
  if k = 0 ∨ k = 1 then fun y => y else fun y => rows - 1 - y

/-- Proof-side column relabeling of reorder_corners for a given a1 index:
identity when step_x is 1 (indices 0 and 2), reversal otherwise. -/
def colMap (cols : ℕ) (k : ℤ) : ℕ → ℕ :=
  if k = 0 ∨ k = 2 then fun x => x else fun x => cols - 1 - x

/-- Proof-side invariant of the candidate loop: after processing the a1
indices of L in order, the running best is either untouched (and no
candidate of L was valid) or it records a valid candidate of L whose error
is minimal among the valid candidates of L, the first such one in case of
ties. -/
def selGood (f : ℤ → Candidate) (L : List ℤ) (st : SelState) : Prop :=
  (st = selInit ∧ ∀ k ∈ L, (f k).zOk = false) ∨
  ((f st.a1).zOk = true ∧ st.a1 ∈ L ∧ st.err = (f st.a1).reprojErr ∧
    st.corners = (f st.a1).testCorners ∧ st.rvec = some (f st.a1).rvec ∧
    st.tvec = some (f st.a1).tvec ∧
    (∀ j ∈ L, (f j).zOk = true → st.err ≤ (f j).reprojErr) ∧
    (∀ j ∈ L, (f j).zOk = true → (f j).reprojErr = st.err → st.a1 ≤ j))

/-- A trivial batch-solver environment used to instantiate theorems about
the calibrate wrapper at concrete inputs. -/
def envTriv : CalibEnv := ⟨fun _ _ _ => ⟨0, [], [], [], []⟩⟩

/-- A one-by-one detector used for concrete instantiations. -/
def d1 : Chessboard := ⟨1, 1, 1⟩

/-- A single detected corner for the one-by-one detector. -/
def corners1 : List Point := [((5:ℚ), (5:ℚ))]

/-- A 100 by 100 grayscale image of uniform brightness 50. -/
def gSmall : GrayEnv := ⟨100, 100, fun _ => 50⟩

/-- A pose environment in which every solve converges, R(2,2) is 1, every
projection lands on the single corner of corners1, and the norm equals the
Euclidean norm on the axis-aligned differences at which it is evaluated. -/
def envGood : PnPEnv :=
  ⟨fun _ _ _ _ => (true, [0], [0]), fun _ => 1, fun _ _ _ _ _ => [((5:ℚ), (5:ℚ))],
   fun p => if p.1 = 0 then |p.2| else 0⟩

/-- A pose environment in which no solve converges. -/
def envNone : PnPEnv :=
  ⟨fun _ _ _ _ => (false, [], []), fun _ => 1, fun _ _ _ _ _ => [], fun _ => 0⟩

/-- The seven-by-seven detector of main.cpp (CORNERS_X = CORNERS_Y = 7,
SQUARE_SIZE = 1.0). -/
def d7 : Chessboard := ⟨7, 7, 1⟩

/-- A 7x7 detected grid whose corner at row r and column c sits at exact
coordinates (r, c). -/
def corners49 : List Point :=
  (List.range 7).flatMap fun (r : ℕ) => (List.range 7).map fun (c : ℕ) => ((r : ℚ), (c : ℚ))

/-- A pose environment realizing a mean reprojection error of exactly 15
pixels for rotation index 0: the solve converges only on the unrotated
ordering, R(2,2) is 1, every object point projects 15 pixels beyond its
corner along the second axis, and the norm agrees with the Euclidean norm
on the axis-aligned differences at which it is evaluated. -/
def envBoundary : PnPEnv :=
  ⟨fun _ tc _ _ => (decide (tc = corners49), [0], [0]), fun _ => 1,
   fun objPts _ _ _ _ => objPts.map fun q => (q.1, q.2.1 + 15),
   fun p => if p.1 = 0 then |p.2| else 0⟩

/-- A 100 by 100 grayscale image of uniform brightness 128. -/
def gBig : GrayEnv := ⟨100, 100, fun _ => 128⟩

/-- A 4 by 4 grayscale image: too small for any extrapolated outer corner of
corners49 to pass the bounds test. -/
def gTiny : GrayEnv := ⟨4, 4, fun _ => 0⟩

/-- A 7x7 detected grid shifted and scaled so that all four extrapolated
outer corners fall inside a 100 by 100 image. -/
def cornersShifted : List Point :=
  (List.range 7).flatMap fun (r : ℕ) => (List.range 7).map fun (c : ℕ) =>
    ((10 + 10 * (c : ℚ), 10 + 10 * (r : ℚ)) : Point)

/-- A 100 by 100 grayscale image of uniform brightness 100. -/
def gC4 : GrayEnv := ⟨100, 100, fun _ => 100⟩

/-- Reading every index of a list in order reproduces the list. -/
theorem map_getD_range {α : Type*} (l : List α) (dflt : α) :
    (List.range l.length).map (fun i => l.getD i dflt) = l := by
  induction l with
  | nil => rfl
  | cons a t ih =>
    rw [List.length_cons, List.range_succ_eq_map, List.map_cons, List.map_map]
    have h : (List.range t.length).map ((fun i => (a :: t).getD i dflt) ∘ Nat.succ) =
        (List.range t.length).map fun i => t.getD i dflt := by
      apply List.map_congr_left
      intro x _
      rfl
    rw [h, ih]
    rfl

/-- Division and remainder recover the coordinates of a row-major index. -/
theorem grid_div {a b c : ℕ} (hb : b < c) : (a * c + b) / c = a := by
  have hc : 0 < c := by omega
  rw [Nat.add_comm, Nat.add_mul_div_right _ _ hc, Nat.div_eq_of_lt hb, Nat.zero_add]

/-- Remainder counterpart of grid_div. -/
theorem grid_mod {a b c : ℕ} (hb : b < c) : (a * c + b) % c = b := by
  rw [Nat.add_comm, Nat.add_mul_mod_self_right, Nat.mod_eq_of_lt hb]

/-- A row-major index formed from in-range coordinates is in range. -/
theorem grid_idx_lt {a b r c : ℕ} (ha : a < r) (hb : b < c) : a * c + b < r * c := by
  calc a * c + b < a * c + c := by omega
    _ = (a + 1) * c := by ring
    _ ≤ r * c := Nat.mul_le_mul_right c ha

/-- A doubly nested walk over a grid, flattened, is the map over row-major
indices of the body applied to the decoded coordinates. -/
theorem flatMap_map_range {α : Type*} (h : ℕ → ℕ → α) (r c : ℕ) :
    (List.range r).flatMap (fun y => (List.range c).map fun x => h y x) =
      (List.range (r * c)).map fun i => h (i / c) (i % c) := by
  induction r with
  | zero => simp
  | succ n ih =>
    rw [List.range_succ, List.flatMap_append, ih, Nat.succ_mul, List.range_add, List.map_append]
    congr 1
    rw [List.flatMap_cons, List.flatMap_nil, List.append_nil, List.map_map]
    apply List.map_congr_left
    intro x hx
    rw [List.mem_range] at hx
    simp only [Function.comp_apply]
    rw [grid_div hx, grid_mod hx]

/-- Reversing the order of the first n naturals, as a map. -/
theorem map_rev_range (n : ℕ) :
    (List.range n).map (fun i => n - 1 - i) = (List.range n).reverse := by
  induction n with
  | zero => rfl
  | succ m ih =>
    conv_lhs => rw [List.range_succ_eq_map]
    conv_rhs => rw [List.range_succ]
    rw [List.map_cons, List.map_map, List.reverse_append]
    simp only [List.reverse_cons, List.reverse_nil, List.nil_append, List.singleton_append]
    congr 1
    rw [← ih]
    apply List.map_congr_left
    intro x hx
    rw [List.mem_range] at hx
    simp only [Function.comp_apply]
    omega

/-- Reading an in-range index of a map over a range evaluates the map body. -/
theorem getD_map_range {α : Type*} (f : ℕ → α) {n i : ℕ} (h : i < n) (dflt : α) :
    ((List.range n).map f).getD i dflt = f i := by
  rw [List.getD_eq_getElem _ _ (by simpa using h)]
  simp

/-- Pointwise congruence for flatMap, restricted to members. -/
theorem flatMap_congr_mem {α β : Type*} {l : List α} {f g : α → List β}
    (h : ∀ a ∈ l, f a = g a) : l.flatMap f = l.flatMap g := by
  induction l with
  | nil => rfl
  | cons a t ih =>
    rw [List.flatMap_cons, List.flatMap_cons, h a (by simp),
      ih fun b hb => h b (by simp [hb])]

/-- Folding a grid walk with relabeled axes into gridIdx form. -/
theorem reorder_body_congr (rows cols : ℕ) (l : List Point) (e : ℕ → ℕ → ℤ) (f : ℕ → ℕ → ℕ)
    (h : ∀ y, y < rows → ∀ x, x < cols → (e y x).toNat = f y x) :
    (List.range rows).flatMap
        (fun y => (List.range cols).map fun x => l.getD (e y x).toNat ((0:ℚ), (0:ℚ))) =
      (List.range (rows * cols)).map
        fun i => l.getD (f (i / cols) (i % cols)) ((0:ℚ), (0:ℚ)) := by
  rw [← flatMap_map_range (fun y x => l.getD (f y x) ((0:ℚ), (0:ℚ))) rows cols]
  apply flatMap_congr_mem
  intro y hy
  apply List.map_congr_left
  intro x hx
  rw [List.mem_range] at hy hx
  rw [h y hy x hx]

/-- Casting a row-major index computation from the integers. -/
theorem toNat_grid (a b c : ℕ) : ((a : ℤ) * (c : ℤ) + (b : ℤ)).toNat = a * c + b := by
  rw [show (a : ℤ) * (c : ℤ) + (b : ℤ) = ((a * c + b : ℕ) : ℤ) by push_cast; ring]
  exact Int.toNat_natCast _

/-- Each axis relabeling is the identity or the reversal. -/
theorem rowMap_cases (rows : ℕ) (k : ℤ) :
    rowMap rows k = (fun y => y) ∨ rowMap rows k = fun y => rows - 1 - y := by
  unfold rowMap
  split
  · exact Or.inl rfl
  · exact Or.inr rfl

/-- Each axis relabeling is the identity or the reversal. -/
theorem colMap_cases (cols : ℕ) (k : ℤ) :
    colMap cols k = (fun x => x) ∨ colMap cols k = fun x => cols - 1 - x := by
  unfold colMap
  split
  · exact Or.inl rfl
  · exact Or.inr rfl

/-- The identity and the reversal keep indices in range. -/
theorem reflOrRev_lt {n : ℕ} {f : ℕ → ℕ}
    (hf : f = (fun y => y) ∨ f = fun y => n - 1 - y) : ∀ y, y < n → f y < n := by
  rcases hf with rfl | rfl <;> intro y hy <;> simp <;> omega

/-- The identity and the reversal are involutive on the range. -/
theorem reflOrRev_invol {n : ℕ} {f : ℕ → ℕ}
    (hf : f = (fun y => y) ∨ f = fun y => n - 1 - y) : ∀ y, y < n → f (f y) = y := by
  rcases hf with rfl | rfl <;> intro y hy <;> simp <;> omega

/-- The identity and the reversal permute the range. -/
theorem map_reflOrRev_perm {n : ℕ} {f : ℕ → ℕ}
    (hf : f = (fun y => y) ∨ f = fun y => n - 1 - y) :
    ((List.range n).map f).Perm (List.range n) := by
  rcases hf with rfl | rfl
  · rw [List.map_id']
  · rw [map_rev_range]
    exact List.reverse_perm _

/-- gridIdx with axis permutations permutes the row-major indices. -/
theorem gridIdx_perm (r c : ℕ) (rho gamma : ℕ → ℕ)
    (hrho : ((List.range r).map rho).Perm (List.range r))
    (hgamma : ((List.range c).map gamma).Perm (List.range c)) :
    ((List.range (r * c)).map (gridIdx c rho gamma)).Perm (List.range (r * c)) := by
  have h1 : (List.range (r * c)).map (gridIdx c rho gamma) =
      (List.range r).flatMap fun y => (List.range c).map fun x => rho y * c + gamma x :=
    (flatMap_map_range (fun y x => rho y * c + gamma x) r c).symm
  have h4 : (List.range (r * c)).map (fun i => i / c * c + i % c) = List.range (r * c) := by
    calc (List.range (r * c)).map (fun i => i / c * c + i % c)
        = (List.range (r * c)).map fun i => i := by
          apply List.map_congr_left
          intro i _
          rw [Nat.mul_comm]
          exact Nat.div_add_mod i c
      _ = List.range (r * c) := List.map_id' _
  have h2 : ((List.range r).flatMap fun y => (List.range c).map fun x => rho y * c + gamma x).Perm
      ((List.range r).flatMap fun y => (List.range c).map fun x => rho y * c + x) := by
    apply List.Perm.flatMap_left
    intro y _
    rw [show (List.range c).map (fun x => rho y * c + gamma x) =
        ((List.range c).map gamma).map (fun x => rho y * c + x) by rw [List.map_map]; rfl]
    exact hgamma.map _
  have h5 : ((List.range r).flatMap fun y => (List.range c).map fun x => rho y * c + x) =
      ((List.range r).map rho).flatMap fun y => (List.range c).map fun x => y * c + x :=
    (List.flatMap_map rho (fun y => (List.range c).map fun x => y * c + x) (List.range r)).symm
  have h3 : (((List.range r).map rho).flatMap fun y => (List.range c).map fun x => y * c + x).Perm
      ((List.range r).flatMap fun y => (List.range c).map fun x => y * c + x) :=
    hrho.flatMap_right _
  have h8 : ((List.range r).flatMap fun y => (List.range c).map fun x => y * c + x) =
      List.range (r * c) :=
    (flatMap_map_range (fun y x => y * c + x) r c).trans h4
  have h3' : ((List.range r).flatMap fun y => (List.range c).map fun x => rho y * c + x).Perm
      ((List.range r).flatMap fun y => (List.range c).map fun x => y * c + x) := by
    rw [h5]
    exact h3
  rw [h1, ← h8]
  exact h2.trans h3'

/-- The quotient of an index below r * c by c is below r. -/
theorem div_lt_grid {i r c : ℕ} (hi : i < r * c) : i / c < r := by
  have hc : 0 < c := by
    rcases Nat.eq_zero_or_pos c with h | h
    · subst h; simp at hi
    · exact h
  rcases Nat.lt_or_ge (i / c) r with h | h
  · exact h
  · exfalso
    have h1 : r * c ≤ i / c * c := Nat.mul_le_mul_right _ h
    have h2 : i / c * c ≤ i := Nat.div_mul_le_self i c
    omega

/-- gridIdx with bounded relabelings stays in range. -/
theorem gridIdx_lt {r c : ℕ} (rho gamma : ℕ → ℕ) (hrho : ∀ y, y < r → rho y < r)
    (hgamma : ∀ x, x < c → gamma x < c) {i : ℕ} (hi : i < r * c) :
    gridIdx c rho gamma i < r * c := by
  have hc : 0 < c := by
    rcases Nat.eq_zero_or_pos c with h | h
    · subst h; simp at hi
    · exact h
  exact grid_idx_lt (hrho _ (div_lt_grid hi)) (hgamma _ (Nat.mod_lt _ hc))

/-- gridIdx with involutive relabelings is involutive on row-major indices. -/
theorem gridIdx_invol {r c : ℕ} (rho gamma : ℕ → ℕ) (hrhob : ∀ y, y < r → rho y < r)
    (hgammab : ∀ x, x < c → gamma x < c) (hrhoi : ∀ y, y < r → rho (rho y) = y)
    (hgammai : ∀ x, x < c → gamma (gamma x) = x) {i : ℕ} (hi : i < r * c) :
    gridIdx c rho gamma (gridIdx c rho gamma i) = i := by
  have hc : 0 < c := by
    rcases Nat.eq_zero_or_pos c with h | h
    · subst h; simp at hi
    · exact h
  have hx : i % c < c := Nat.mod_lt _ hc
  have hy : i / c < r := div_lt_grid hi
  unfold gridIdx
  rw [grid_div (hgammab _ hx), grid_mod (hgammab _ hx), hrhoi _ hy, hgammai _ hx,
    Nat.mul_comm]
  exact Nat.div_add_mod i c

/-- reorder_corners, for the four a1 indices, is the map over row-major
indices of the input read through gridIdx with the per-axis relabelings. -/
theorem reorder_corners_eq (rows cols : ℕ) (s : ℚ) (l : List Point) (k : ℤ)
    (hk : k = 0 ∨ k = 1 ∨ k = 2 ∨ k = 3) :
    reorder_corners ⟨(cols : ℤ), (rows : ℤ), s⟩ l k =
      (List.range (rows * cols)).map
        fun i => l.getD (gridIdx cols (rowMap rows k) (colMap cols k) i) ((0:ℚ), (0:ℚ)) := by
  rcases hk with rfl | rfl | rfl | rfl
  · have h0 : reorder_corners ⟨(cols : ℤ), (rows : ℤ), s⟩ l 0 =
        (List.range ((rows : ℤ)).toNat).flatMap fun (y : ℕ) =>
          (List.range ((cols : ℤ)).toNat).map fun (x : ℕ) =>
            l.getD ((0 + (y : ℤ) * 1) * (cols : ℤ) + (0 + (x : ℤ) * 1)).toNat ((0:ℚ), (0:ℚ)) :=
      rfl
    rw [h0, Int.toNat_natCast, Int.toNat_natCast]
    refine Eq.trans (reorder_body_congr rows cols l _ (fun y x => y * cols + x) ?_) ?_
    · intro y hy x hx
      rw [show (0 + (y : ℤ) * 1) = ((y : ℕ) : ℤ) by omega,
        show (0 + (x : ℤ) * 1) = ((x : ℕ) : ℤ) by omega, toNat_grid]
    · apply List.map_congr_left
      intro i _
      rfl
  · have h0 : reorder_corners ⟨(cols : ℤ), (rows : ℤ), s⟩ l 1 =
        (List.range ((rows : ℤ)).toNat).flatMap fun (y : ℕ) =>
          (List.range ((cols : ℤ)).toNat).map fun (x : ℕ) =>
            l.getD ((0 + (y : ℤ) * 1) * (cols : ℤ) +
              ((cols : ℤ) - 1 + (x : ℤ) * -1)).toNat ((0:ℚ), (0:ℚ)) :=
      rfl
    rw [h0, Int.toNat_natCast, Int.toNat_natCast]
    refine Eq.trans (reorder_body_congr rows cols l _ (fun y x => y * cols + (cols - 1 - x)) ?_) ?_
    · intro y hy x hx
      rw [show (0 + (y : ℤ) * 1) = ((y : ℕ) : ℤ) by omega,
        show ((cols : ℤ) - 1 + (x : ℤ) * -1) = ((cols - 1 - x : ℕ) : ℤ) by omega, toNat_grid]
    · apply List.map_congr_left
      intro i _
      rfl
  · have h0 : reorder_corners ⟨(cols : ℤ), (rows : ℤ), s⟩ l 2 =
        (List.range ((rows : ℤ)).toNat).flatMap fun (y : ℕ) =>
          (List.range ((cols : ℤ)).toNat).map fun (x : ℕ) =>
            l.getD (((rows : ℤ) - 1 + (y : ℤ) * -1) * (cols : ℤ) +
              (0 + (x : ℤ) * 1)).toNat ((0:ℚ), (0:ℚ)) :=
      rfl
    rw [h0, Int.toNat_natCast, Int.toNat_natCast]
    refine Eq.trans (reorder_body_congr rows cols l _ (fun y x => (rows - 1 - y) * cols + x) ?_) ?_
    · intro y hy x hx
      rw [show ((rows : ℤ) - 1 + (y : ℤ) * -1) = ((rows - 1 - y : ℕ) : ℤ) by omega,
        show (0 + (x : ℤ) * 1) = ((x : ℕ) : ℤ) by omega, toNat_grid]
    · apply List.map_congr_left
      intro i _
      rfl
  · have h0 : reorder_corners ⟨(cols : ℤ), (rows : ℤ), s⟩ l 3 =
        (List.range ((rows : ℤ)).toNat).flatMap fun (y : ℕ) =>
          (List.range ((cols : ℤ)).toNat).map fun (x : ℕ) =>
            l.getD (((rows : ℤ) - 1 + (y : ℤ) * -1) * (cols : ℤ) +
              ((cols : ℤ) - 1 + (x : ℤ) * -1)).toNat ((0:ℚ), (0:ℚ)) :=
      rfl
    rw [h0, Int.toNat_natCast, Int.toNat_natCast]
    refine Eq.trans (reorder_body_congr rows cols l _
      (fun y x => (rows - 1 - y) * cols + (cols - 1 - x)) ?_) ?_
    · intro y hy x hx
      rw [show ((rows : ℤ) - 1 + (y : ℤ) * -1) = ((rows - 1 - y : ℕ) : ℤ) by omega,
        show ((cols : ℤ) - 1 + (x : ℤ) * -1) = ((cols - 1 - x : ℕ) : ℤ) by omega, toNat_grid]
    · apply List.map_congr_left
      intro i _
      rfl

/-- generate_object_points as a single map over row-major indices. -/
theorem object_points_eq (rows cols : ℕ) (s : ℚ) :
    generate_object_points ⟨(cols : ℤ), (rows : ℤ), s⟩ =
      (List.range (rows * cols)).map
        fun i => (((i / cols : ℕ) : ℚ) * s, ((i % cols : ℕ) : ℚ) * s, (0:ℚ)) := by
  unfold generate_object_points
  rw [show ((⟨(cols : ℤ), (rows : ℤ), s⟩ : Chessboard).cornersY).toNat = rows from
      Int.toNat_natCast rows,
    show ((⟨(cols : ℤ), (rows : ℤ), s⟩ : Chessboard).cornersX).toNat = cols from
      Int.toNat_natCast cols]
  exact flatMap_map_range (fun y x => ((y : ℚ) * s, (x : ℚ) * s, (0:ℚ))) rows cols

/-- C3: for every positive rows and cols and every square size s, the object
model has exactly rows*cols points, every point has third coordinate zero,
and the point at row-major index (r, c) (row index varying slower) equals
(r*s, c*s, 0). -/
theorem C3_object_model (rows cols : ℕ) (s : ℚ) (hr : 0 < rows) (hc : 0 < cols) :
    (generate_object_points ⟨(cols : ℤ), (rows : ℤ), s⟩).length = rows * cols ∧
    (∀ p ∈ generate_object_points ⟨(cols : ℤ), (rows : ℤ), s⟩, p.2.2 = 0) ∧
    (∀ r c : ℕ, r < rows → c < cols →
      (generate_object_points ⟨(cols : ℤ), (rows : ℤ), s⟩).getD (r * cols + c)
          ((0:ℚ), (0:ℚ), (0:ℚ)) = ((r : ℚ) * s, (c : ℚ) * s, 0)) := by
  refine ⟨?_, ?_, ?_⟩
  · rw [object_points_eq, List.length_map, List.length_range]
  · intro p hp
    unfold generate_object_points at hp
    simp only [List.mem_flatMap, List.mem_map] at hp
    obtain ⟨y, _, x, _, rfl⟩ := hp
    rfl
  · intro r c hrr hcc
    rw [object_points_eq, getD_map_range _ (grid_idx_lt hrr hcc), grid_div hcc, grid_mod hcc]

/-- Witness for C3 at rows = 2, cols = 3, square size 1. -/
theorem C3_object_model_witness :
    ((0 < 2 ∧ 0 < 3) ∧
      ((generate_object_points ⟨(3 : ℤ), (2 : ℤ), (1:ℚ)⟩).length = 2 * 3 ∧
        (∀ p ∈ generate_object_points ⟨(3 : ℤ), (2 : ℤ), (1:ℚ)⟩, p.2.2 = 0) ∧
        (∀ r c : ℕ, r < 2 → c < 3 →
          (generate_object_points ⟨(3 : ℤ), (2 : ℤ), (1:ℚ)⟩).getD (r * 3 + c)
              ((0:ℚ), (0:ℚ), (0:ℚ)) = ((r : ℚ) * 1, (c : ℚ) * 1, 0)))) :=
  ⟨⟨by decide, by decide⟩, C3_object_model 2 3 1 (by decide) (by decide)⟩

/-- C6: evaluation of generate_object_points at degenerate corner counts.
The source has no assertion and no failure path: with rows = 0, cols = 0 or
a negative count the loops simply run zero times and the function silently
returns an empty vector, so it does return a result on a precondition
violation. -/
theorem C6_degenerate_returns_empty :
    generate_object_points ⟨(5 : ℤ), (0 : ℤ), (1:ℚ)⟩ = [] ∧
    generate_object_points ⟨(0 : ℤ), (5 : ℤ), (1:ℚ)⟩ = [] ∧
    generate_object_points ⟨(7 : ℤ), (-2 : ℤ), (1:ℚ)⟩ = [] := by
  refine ⟨rfl, ?_, rfl⟩
  show (List.range 5).flatMap (fun (y : ℕ) => (List.range 0).map _) = []
  simp

/-- C8: for each a1 index in 0..3 and every corner list of length
rows*cols, reorder_corners returns a list of length exactly rows*cols that
is a permutation of its input (no point duplicated or dropped). -/
theorem C8_reorder_bijection (rows cols : ℕ) (s : ℚ) (k : ℤ)
    (hk : k = 0 ∨ k = 1 ∨ k = 2 ∨ k = 3) (corners : List Point)
    (hlen : corners.length = rows * cols) :
    (reorder_corners ⟨(cols : ℤ), (rows : ℤ), s⟩ corners k).length = rows * cols ∧
    (reorder_corners ⟨(cols : ℤ), (rows : ℤ), s⟩ corners k).Perm corners := by
  have he := reorder_corners_eq rows cols s corners k hk
  have hperm := gridIdx_perm rows cols (rowMap rows k) (colMap cols k)
    (map_reflOrRev_perm (rowMap_cases rows k)) (map_reflOrRev_perm (colMap_cases cols k))
  constructor
  · rw [he, List.length_map, List.length_range]
  · rw [he]
    have hmm : (List.range (rows * cols)).map
        (fun i => corners.getD (gridIdx cols (rowMap rows k) (colMap cols k) i) ((0:ℚ), (0:ℚ))) =
        ((List.range (rows * cols)).map (gridIdx cols (rowMap rows k) (colMap cols k))).map
          fun i => corners.getD i ((0:ℚ), (0:ℚ)) := by
      rw [List.map_map]
      rfl
    rw [hmm]
    have h2 := hperm.map fun i => corners.getD i ((0:ℚ), (0:ℚ))
    have h3 : (List.range (rows * cols)).map (fun i => corners.getD i ((0:ℚ), (0:ℚ))) =
        corners := by
      rw [← hlen]
      exact map_getD_range corners ((0:ℚ), (0:ℚ))
    rw [h3] at h2
    exact h2

/-- Witness for C8 at a 2 by 2 grid with a1 index 1. -/
theorem C8_reorder_bijection_witness :
    (((1:ℤ) = 0 ∨ (1:ℤ) = 1 ∨ (1:ℤ) = 2 ∨ (1:ℤ) = 3) ∧
      ([((0:ℚ), (0:ℚ)), (1, 0), (0, 1), (1, 1)] : List Point).length = 2 * 2) ∧
    ((reorder_corners ⟨(2 : ℤ), (2 : ℤ), 1⟩
        [((0:ℚ), (0:ℚ)), (1, 0), (0, 1), (1, 1)] 1).length = 2 * 2 ∧
      (reorder_corners ⟨(2 : ℤ), (2 : ℤ), 1⟩
        [((0:ℚ), (0:ℚ)), (1, 0), (0, 1), (1, 1)] 1).Perm
        [((0:ℚ), (0:ℚ)), (1, 0), (0, 1), (1, 1)]) :=
  ⟨⟨by decide, by decide⟩,
    C8_reorder_bijection 2 2 1 1 (by decide) [((0:ℚ), (0:ℚ)), (1, 0), (0, 1), (1, 1)] (by decide)⟩

/-- C9: for each fixed a1 index in 0..3, reorder_corners applied twice with
that index to a corner list of length rows*cols returns the original list. -/
theorem C9_reorder_involution (rows cols : ℕ) (s : ℚ) (k : ℤ)
    (hk : k = 0 ∨ k = 1 ∨ k = 2 ∨ k = 3) (corners : List Point)
    (hlen : corners.length = rows * cols) :
    reorder_corners ⟨(cols : ℤ), (rows : ℤ), s⟩
      (reorder_corners ⟨(cols : ℤ), (rows : ℤ), s⟩ corners k) k = corners := by
  have he := reorder_corners_eq rows cols s corners k hk
  have he2 := reorder_corners_eq rows cols s
    (reorder_corners ⟨(cols : ℤ), (rows : ℤ), s⟩ corners k) k hk
  have hrb := reflOrRev_lt (rowMap_cases rows k)
  have hgb := reflOrRev_lt (colMap_cases cols k)
  have hri := reflOrRev_invol (rowMap_cases rows k)
  have hgi := reflOrRev_invol (colMap_cases cols k)
  rw [he2]
  have hca : (List.range (rows * cols)).map
      (fun i => (reorder_corners ⟨(cols : ℤ), (rows : ℤ), s⟩ corners k).getD
        (gridIdx cols (rowMap rows k) (colMap cols k) i) ((0:ℚ), (0:ℚ))) =
      (List.range (rows * cols)).map fun i => corners.getD i ((0:ℚ), (0:ℚ)) := by
    apply List.map_congr_left
    intro i hmem
    rw [List.mem_range] at hmem
    rw [he, getD_map_range _ (gridIdx_lt _ _ hrb hgb hmem),
      gridIdx_invol _ _ hrb hgb hri hgi hmem]
  rw [hca, ← hlen]
  exact map_getD_range corners ((0:ℚ), (0:ℚ))

/-- Witness for C9 at a 2 by 2 grid with a1 index 3. -/
theorem C9_reorder_involution_witness :
    (((3:ℤ) = 0 ∨ (3:ℤ) = 1 ∨ (3:ℤ) = 2 ∨ (3:ℤ) = 3) ∧
      ([((0:ℚ), (0:ℚ)), (1, 0), (0, 1), (1, 1)] : List Point).length = 2 * 2) ∧
    reorder_corners ⟨(2 : ℤ), (2 : ℤ), 1⟩
      (reorder_corners ⟨(2 : ℤ), (2 : ℤ), 1⟩
        [((0:ℚ), (0:ℚ)), (1, 0), (0, 1), (1, 1)] 3) 3 =
      [((0:ℚ), (0:ℚ)), (1, 0), (0, 1), (1, 1)] :=
  ⟨⟨by decide, by decide⟩,
    C9_reorder_involution 2 2 1 3 (by decide)
      [((0:ℚ), (0:ℚ)), (1, 0), (0, 1), (1, 1)] (by decide)⟩

/-- C7: add_sample appends exactly one sample (count grows by one, previous
samples and their order are untouched), and no Calibrator operation ever
removes an entry: under every session operation the stored samples are
preserved as a prefix and the count never decreases. -/
theorem C7_add_sample_appends (c : Calibrator) (img : List Point) (obj : List Point3) :
    (add_sample c img obj).count = c.count + 1 ∧
    (add_sample c img obj).imagePoints = c.imagePoints ++ [img] ∧
    (add_sample c img obj).objectPoints = c.objectPoints ++ [obj] ∧
    ∀ op : CalOp,
      (∃ t, (applyOp c op).imagePoints = c.imagePoints ++ t) ∧
      (∃ t, (applyOp c op).objectPoints = c.objectPoints ++ t) ∧
      c.count ≤ (applyOp c op).count := by
  refine ⟨?_, rfl, rfl, ?_⟩
  · show (c.imagePoints ++ [img]).length = c.imagePoints.length + 1
    rw [List.length_append, List.length_cons, List.length_nil]
  · intro op
    cases op with
    | addSample i o =>
      refine ⟨⟨[i], rfl⟩, ⟨[o], rfl⟩, ?_⟩
      show c.count ≤ (add_sample c i o).count
      rw [show (add_sample c i o).count = c.count + 1 from by
        show (c.imagePoints ++ [i]).length = c.imagePoints.length + 1
        rw [List.length_append, List.length_cons, List.length_nil]]
      omega
    | runCalibrate env sz =>
      show (∃ t, (calibrate env c sz).1.imagePoints = c.imagePoints ++ t) ∧
        (∃ t, (calibrate env c sz).1.objectPoints = c.objectPoints ++ t) ∧
        c.count ≤ (calibrate env c sz).1.count
      unfold calibrate
      split
      · exact ⟨⟨[], by simp⟩, ⟨[], by simp⟩, le_refl _⟩
      · exact ⟨⟨[], by simp⟩, ⟨[], by simp⟩, le_refl _⟩
    | save => exact ⟨⟨[], by simp [applyOp]⟩, ⟨[], by simp [applyOp]⟩, le_refl _⟩

/-- C10: a fresh Calibrator reports reprojection error 0, an empty camera
matrix and a 5x1 zero distortion vector, and none of the three is modified
by add_sample or by a calibrate call on an empty store. -/
theorem C10_initial_state :
    Calibrator.init.reprojError = 0 ∧ Calibrator.init.cameraMatrix = none ∧
    Calibrator.init.distCoeffs = List.replicate 5 0 ∧
    (∀ (c : Calibrator) (img : List Point) (obj : List Point3),
      (add_sample c img obj).reprojError = c.reprojError ∧
      (add_sample c img obj).cameraMatrix = c.cameraMatrix ∧
      (add_sample c img obj).distCoeffs = c.distCoeffs) ∧
    (∀ (env : CalibEnv) (c : Calibrator) (sz : ℤ × ℤ), c.imagePoints = [] →
      (calibrate env c sz).1 = c ∧ (calibrate env c sz).2 = false) := by
  refine ⟨rfl, rfl, rfl, fun c img obj => ⟨rfl, rfl, rfl⟩, fun env c sz h => ?_⟩
  unfold calibrate
  rw [if_pos (Or.inl h)]
  exact ⟨rfl, rfl⟩

/-- Witness for C10: a failed calibrate on the fresh store changes nothing. -/
theorem C10_initial_state_witness :
    Calibrator.init.imagePoints = [] ∧
    ((calibrate envTriv Calibrator.init (10, 10)).1 = Calibrator.init ∧
      (calibrate envTriv Calibrator.init (10, 10)).2 = false) :=
  ⟨rfl, C10_initial_state.2.2.2.2 envTriv Calibrator.init (10, 10) rfl⟩

/-- C5: with the two sample vectors of equal length (the invariant every
add_sample preserves), calibrate returns false exactly on the empty store
and then changes nothing; on a non-empty store it returns true, stores the
batch solver camera matrix, distortion coefficients and the solver mean
reprojection error verbatim, and keeps nothing else (the per-view
extrinsics are discarded). -/
theorem C5_calibrate_contract (env : CalibEnv) (c : Calibrator) (sz : ℤ × ℤ)
    (h : c.imagePoints.length = c.objectPoints.length) :
    ((calibrate env c sz).2 = false ↔ c.imagePoints = []) ∧
    (c.imagePoints = [] → (calibrate env c sz).1 = c) ∧
    (c.imagePoints ≠ [] →
      (calibrate env c sz).2 = true ∧
      (calibrate env c sz).1 =
        { c with
          cameraMatrix := some (env.calibrateCamera c.objectPoints c.imagePoints sz).K,
          distCoeffs := (env.calibrateCamera c.objectPoints c.imagePoints sz).dist,
          reprojError := (env.calibrateCamera c.objectPoints c.imagePoints sz).err }) := by
  by_cases hc : c.imagePoints = []
  · have hob : c.objectPoints = [] := by
      rw [hc] at h
      exact List.length_eq_zero.mp h.symm
    refine ⟨?_, fun _ => ?_, fun hne => absurd hc hne⟩
    · unfold calibrate
      rw [if_pos (Or.inl hc)]
      simp [hc]
    · unfold calibrate
      rw [if_pos (Or.inl hc)]
  · have hob : ¬ c.objectPoints = [] := by
      intro hh
      rw [hh] at h
      exact hc (List.length_eq_zero.mp h)
    have hcond : ¬ (c.imagePoints = [] ∨ c.objectPoints = []) := by
      intro hh
      rcases hh with hh | hh
      · exact hc hh
      · exact hob hh
    refine ⟨?_, fun hh => absurd hh hc, fun _ => ?_⟩
    · unfold calibrate
      rw [if_neg hcond]
      simp [hc]
    · unfold calibrate
      rw [if_neg hcond]
      exact ⟨rfl, rfl⟩

/-- Witness for C5: a store holding one sample calibrates successfully and
receives exactly the trivial solver outputs. -/
theorem C5_calibrate_contract_witness :
    ((add_sample Calibrator.init [((0:ℚ), (0:ℚ))] [((0:ℚ), (0:ℚ), (0:ℚ))]).imagePoints.length =
      (add_sample Calibrator.init [((0:ℚ), (0:ℚ))] [((0:ℚ), (0:ℚ), (0:ℚ))]).objectPoints.length ∧
      (add_sample Calibrator.init [((0:ℚ), (0:ℚ))] [((0:ℚ), (0:ℚ), (0:ℚ))]).imagePoints ≠ []) ∧
    ((calibrate envTriv (add_sample Calibrator.init [((0:ℚ), (0:ℚ))] [((0:ℚ), (0:ℚ), (0:ℚ))])
        (10, 10)).2 = true ∧
      (calibrate envTriv (add_sample Calibrator.init [((0:ℚ), (0:ℚ))] [((0:ℚ), (0:ℚ), (0:ℚ))])
        (10, 10)).1 =
      { add_sample Calibrator.init [((0:ℚ), (0:ℚ))] [((0:ℚ), (0:ℚ), (0:ℚ))] with
        cameraMatrix := some (envTriv.calibrateCamera
          (add_sample Calibrator.init [((0:ℚ), (0:ℚ))] [((0:ℚ), (0:ℚ), (0:ℚ))]).objectPoints
          (add_sample Calibrator.init [((0:ℚ), (0:ℚ))] [((0:ℚ), (0:ℚ), (0:ℚ))]).imagePoints
          (10, 10)).K,
        distCoeffs := (envTriv.calibrateCamera
          (add_sample Calibrator.init [((0:ℚ), (0:ℚ))] [((0:ℚ), (0:ℚ), (0:ℚ))]).objectPoints
          (add_sample Calibrator.init [((0:ℚ), (0:ℚ))] [((0:ℚ), (0:ℚ), (0:ℚ))]).imagePoints
          (10, 10)).dist,
        reprojError := (envTriv.calibrateCamera
          (add_sample Calibrator.init [((0:ℚ), (0:ℚ))] [((0:ℚ), (0:ℚ), (0:ℚ))]).objectPoints
          (add_sample Calibrator.init [((0:ℚ), (0:ℚ))] [((0:ℚ), (0:ℚ), (0:ℚ))]).imagePoints
          (10, 10)).err }) :=
  ⟨⟨rfl, by decide⟩,
    (C5_calibrate_contract envTriv
      (add_sample Calibrator.init [((0:ℚ), (0:ℚ))] [((0:ℚ), (0:ℚ), (0:ℚ))]) (10, 10) rfl).2.2
      (by decide)⟩

/-- The gates of a valid candidate: z_ok can only be true when the solve
converged, R(2,2) is strictly positive, and the computed mean reprojection
error does not exceed 15 (the source clears z_ok when the error is strictly
above 15.0, so an error of exactly 15.0 passes). -/
theorem candidate_zOk_gates (d : Chessboard) (env : PnPEnv) (K : List (List ℚ))
    (dist : List ℚ) (corners : List Point) (k : ℤ)
    (h : (candidate d env K dist corners k).zOk = true) :
    (candidate d env K dist corners k).pnpOk = true ∧
    0 < (candidate d env K dist corners k).r22 ∧
    (candidate d env K dist corners k).reprojErr ≤ 15 := by
  unfold candidate at *
  set sp := env.solvePnP (generate_object_points d) (reorder_corners d corners k) K dist with hsp
  by_cases h0 : (sp.1 && decide (0 < env.rodrigues22 sp.2.1)) = true
  · rw [if_pos h0] at h ⊢
    rw [Bool.and_eq_true, decide_eq_true_eq] at h0
    by_cases h1 : (((List.range (env.projectPoints (generate_object_points d) sp.2.1 sp.2.2 K
          dist).length).map fun i =>
        env.norm (ptSub ((env.projectPoints (generate_object_points d) sp.2.1 sp.2.2 K
            dist).getD i ((0:ℚ), (0:ℚ)))
          ((reorder_corners d corners k).getD i ((0:ℚ), (0:ℚ))))).sum /
        ((env.projectPoints (generate_object_points d) sp.2.1 sp.2.2 K dist).length : ℚ)) > 15
    · rw [if_pos h1] at h
      exact absurd h (by simp)
    · rw [if_neg h1] at h ⊢
      exact ⟨h0.1, h0.2, le_of_not_lt h1⟩
  · rw [if_neg h0] at h
    exact absurd h h0

/-- A valid candidate has error strictly below the 1e9 initial best. -/
theorem candidate_zOk_lt_init (d : Chessboard) (env : PnPEnv) (K : List (List ℚ))
    (dist : List ℚ) (corners : List Point) (k : ℤ)
    (h : (candidate d env K dist corners k).zOk = true) :
    (candidate d env K dist corners k).reprojErr < 1000000000 := by
  have h15 := (candidate_zOk_gates d env K dist corners k h).2.2
  calc (candidate d env K dist corners k).reprojErr ≤ 15 := h15
    _ < 1000000000 := by norm_num

/-- The candidate loop establishes the selection invariant over any strictly
increasing index list. -/
theorem sel_good (f : ℤ → Candidate)
    (hf : ∀ k, (f k).zOk = true → (f k).reprojErr < 1000000000)
    (L : List ℤ) (hL : L.Pairwise (· < ·)) :
    selGood f L (L.foldl (selStep f) selInit) := by
  induction L using List.reverseRecOn with
  | nil => exact Or.inl ⟨rfl, by simp⟩
  | append_singleton L1 k ih =>
    rw [List.pairwise_append] at hL
    obtain ⟨hL1, _, hlt⟩ := hL
    have hGood := ih hL1
    rw [List.foldl_append, List.foldl_cons, List.foldl_nil]
    set st := L1.foldl (selStep f) selInit with hst
    unfold selStep
    by_cases hcond : (f k).zOk = true ∧ (f k).reprojErr < st.err
    · rw [if_pos hcond]
      right
      refine ⟨hcond.1, by simp, rfl, rfl, rfl, rfl, ?_, ?_⟩
      · intro j hj hzj
        rcases List.mem_append.mp hj with hj1 | hjk
        · rcases hGood with ⟨_, hall⟩ | ⟨_, _, _, _, _, _, hmin, _⟩
          · exact absurd hzj (by rw [hall j hj1]; simp)
          · exact le_of_lt (lt_of_lt_of_le hcond.2 (hmin j hj1 hzj))
        · rw [List.mem_singleton] at hjk
          subst hjk
          exact le_refl _
      · intro j hj hzj heq
        rcases List.mem_append.mp hj with hj1 | hjk
        · rcases hGood with ⟨_, hall⟩ | ⟨_, _, _, _, _, _, hmin, _⟩
          · exact absurd hzj (by rw [hall j hj1]; simp)
          · exact absurd (lt_of_le_of_lt (le_of_le_of_eq (hmin j hj1 hzj) heq) hcond.2)
              (lt_irrefl _)
        · rw [List.mem_singleton] at hjk
          subst hjk
          exact le_refl _
    · rw [if_neg hcond]
      rcases hGood with ⟨hst0, hall⟩ | ⟨hz, hmem, herr, hcor, hrv, htv, hmin, htie⟩
      · left
        refine ⟨hst0, ?_⟩
        intro j hj
        rcases List.mem_append.mp hj with hj1 | hjk
        · exact hall j hj1
        · rw [List.mem_singleton] at hjk
          subst hjk
          by_contra hzk
          rw [Bool.not_eq_false] at hzk
          have h9 := hf j hzk
          have hsi : st.err = 1000000000 := by rw [hst0]; rfl
          exact hcond ⟨hzk, by rw [hsi]; exact h9⟩
      · right
        refine ⟨hz, List.mem_append_left _ hmem, herr, hcor, hrv, htv, ?_, ?_⟩
        · intro j hj hzj
          rcases List.mem_append.mp hj with hj1 | hjk
          · exact hmin j hj1 hzj
          · rw [List.mem_singleton] at hjk
            subst hjk
            exact le_of_not_lt fun hlt2 => hcond ⟨hzj, hlt2⟩
        · intro j hj hzj heq
          rcases List.mem_append.mp hj with hj1 | hjk
          · exact htie j hj1 hzj heq
          · rw [List.mem_singleton] at hjk
            subst hjk
            exact le_of_lt (hlt st.a1 hmem j (by simp))

/-- The outputs of find_best_pose satisfy the selection invariant over the
full enumeration 0, 1, 2, 3. -/
theorem find_best_pose_good (d : Chessboard) (env : PnPEnv) (g : GrayEnv)
    (fw fh : ℤ) (corners : List Point) :
    selGood (candidate d env (mkCameraMatrix fw fh) (List.replicate 5 0) corners)
      [0, 1, 2, 3]
      ⟨(find_best_pose d env g fw fh corners).bestReprojErr,
       (find_best_pose d env g fw fh corners).bestA1,
       (find_best_pose d env g fw fh corners).bestCorners,
       (find_best_pose d env g fw fh corners).bestRvec,
       (find_best_pose d env g fw fh corners).bestTvec⟩ := by
  have h := sel_good (candidate d env (mkCameraMatrix fw fh) (List.replicate 5 0) corners)
    (fun k => candidate_zOk_lt_init d env (mkCameraMatrix fw fh) (List.replicate 5 0) corners k)
    [0, 1, 2, 3] (by decide)
  exact h

/-- C2: find_best_pose enumerates the four rotation indices regardless of
the sampled outer brightness (changing the grayscale environment changes
none of the best outputs); if no candidate is valid the best index stays -1,
the best error stays 1e9, and the acceptance step leaves the sample store
untouched; if some candidate is valid the selected index is a valid index in
0..3 whose mean reprojection error is minimal among the valid candidates,
and any tie on the error is resolved to the lowest index. -/
theorem C2_selection (d : Chessboard) (env : PnPEnv) (g g2 : GrayEnv) (fw fh : ℤ)
    (corners : List Point) (cal : Calibrator) :
    ((find_best_pose d env g2 fw fh corners).bestA1 =
        (find_best_pose d env g fw fh corners).bestA1 ∧
      (find_best_pose d env g2 fw fh corners).bestReprojErr =
        (find_best_pose d env g fw fh corners).bestReprojErr ∧
      (find_best_pose d env g2 fw fh corners).bestCorners =
        (find_best_pose d env g fw fh corners).bestCorners ∧
      (find_best_pose d env g2 fw fh corners).bestRvec =
        (find_best_pose d env g fw fh corners).bestRvec ∧
      (find_best_pose d env g2 fw fh corners).bestTvec =
        (find_best_pose d env g fw fh corners).bestTvec) ∧
    ((∀ k : ℤ, k = 0 ∨ k = 1 ∨ k = 2 ∨ k = 3 →
        (candidate d env (mkCameraMatrix fw fh) (List.replicate 5 0) corners k).zOk = false) →
      (find_best_pose d env g fw fh corners).bestA1 = -1 ∧
      (find_best_pose d env g fw fh corners).bestReprojErr = 1000000000 ∧
      accept_frame d cal (find_best_pose d env g fw fh corners) = cal) ∧
    (∀ k : ℤ, (k = 0 ∨ k = 1 ∨ k = 2 ∨ k = 3) →
      (candidate d env (mkCameraMatrix fw fh) (List.replicate 5 0) corners k).zOk = true →
      ∃ k0 : ℤ, (k0 = 0 ∨ k0 = 1 ∨ k0 = 2 ∨ k0 = 3) ∧
        (find_best_pose d env g fw fh corners).bestA1 = k0 ∧
        (candidate d env (mkCameraMatrix fw fh) (List.replicate 5 0) corners k0).zOk = true ∧
        (find_best_pose d env g fw fh corners).bestReprojErr =
          (candidate d env (mkCameraMatrix fw fh) (List.replicate 5 0) corners k0).reprojErr ∧
        (∀ j : ℤ, (j = 0 ∨ j = 1 ∨ j = 2 ∨ j = 3) →
          (candidate d env (mkCameraMatrix fw fh) (List.replicate 5 0) corners j).zOk = true →
          (candidate d env (mkCameraMatrix fw fh) (List.replicate 5 0) corners k0).reprojErr ≤
            (candidate d env (mkCameraMatrix fw fh) (List.replicate 5 0) corners j).reprojErr) ∧
        (∀ j : ℤ, (j = 0 ∨ j = 1 ∨ j = 2 ∨ j = 3) →
          (candidate d env (mkCameraMatrix fw fh) (List.replicate 5 0) corners j).zOk = true →
          (candidate d env (mkCameraMatrix fw fh) (List.replicate 5 0) corners j).reprojErr =
            (candidate d env (mkCameraMatrix fw fh) (List.replicate 5 0) corners k0).reprojErr →
          k0 ≤ j)) := by
  refine ⟨⟨rfl, rfl, rfl, rfl, rfl⟩, ?_, ?_⟩
  · intro hall
    rcases find_best_pose_good d env g fw fh corners with ⟨hinit, _⟩ | ⟨hz, hmem, _⟩
    · have h1 : (find_best_pose d env g fw fh corners).bestA1 = -1 :=
        congrArg SelState.a1 hinit
      have h2 : (find_best_pose d env g fw fh corners).bestReprojErr = 1000000000 :=
        congrArg SelState.err hinit
      refine ⟨h1, h2, ?_⟩
      unfold accept_frame
      rw [if_pos h1]
    · have hk := hall _ (by simpa using hmem)
      exact absurd (hz.symm.trans hk) (by decide)
  · intro k hk hzk
    rcases find_best_pose_good d env g fw fh corners with
      ⟨_, hall⟩ | ⟨hz, hmem, herr, _, _, _, hmin, htie⟩
    · exact absurd hzk (by rw [hall k (by simpa using hk)]; simp)
    · refine ⟨(find_best_pose d env g fw fh corners).bestA1, by simpa using hmem, rfl, hz,
        herr, ?_, ?_⟩
      · intro j hj hzj
        have h := hmin j (by simpa using hj) hzj
        exact le_of_eq_of_le herr.symm h
      · intro j hj hzj heq
        apply htie j (by simpa using hj) hzj
        rw [heq, herr]

/-- Witness for C2 at the one-by-one detector with a non-converging pose
environment: no candidate is valid, the frame is rejected and the sample
store is unchanged. -/
theorem C2_selection_witness :
    (∀ k : ℤ, k = 0 ∨ k = 1 ∨ k = 2 ∨ k = 3 →
      (candidate d1 envNone (mkCameraMatrix 64 48) (List.replicate 5 0) corners1 k).zOk =
        false) ∧
    ((find_best_pose d1 envNone gSmall 64 48 corners1).bestA1 = -1 ∧
      (find_best_pose d1 envNone gSmall 64 48 corners1).bestReprojErr = 1000000000 ∧
      accept_frame d1 Calibrator.init (find_best_pose d1 envNone gSmall 64 48 corners1) =
        Calibrator.init) := by
  have h : ∀ k : ℤ, k = 0 ∨ k = 1 ∨ k = 2 ∨ k = 3 →
      (candidate d1 envNone (mkCameraMatrix 64 48) (List.replicate 5 0) corners1 k).zOk =
        false := by
    intro k hk
    rcases hk with rfl | rfl | rfl | rfl <;> rfl
  exact ⟨h, (C2_selection d1 envNone gSmall gSmall 64 48 corners1 Calibrator.init).2.1 h⟩

/-- C1 (amended): whenever find_best_pose selects an index, that index is
one of 0..3 and its candidate passed all three gates: the pose solve
converged, R(2,2) is strictly positive, and the mean reprojection error is
at most 15.0 pixels (the code clears z_ok only for errors strictly above
15.0, so the bound is inclusive); the reported best error is that
candidate's error.  Contrapositively, a candidate failing any gate is never
selected. -/
theorem C1_valid_gates (d : Chessboard) (env : PnPEnv) (g : GrayEnv) (fw fh : ℤ)
    (corners : List Point)
    (hne : (find_best_pose d env g fw fh corners).bestA1 ≠ -1) :
    ((find_best_pose d env g fw fh corners).bestA1 = 0 ∨
      (find_best_pose d env g fw fh corners).bestA1 = 1 ∨
      (find_best_pose d env g fw fh corners).bestA1 = 2 ∨
      (find_best_pose d env g fw fh corners).bestA1 = 3) ∧
    (candidate d env (mkCameraMatrix fw fh) (List.replicate 5 0) corners
      (find_best_pose d env g fw fh corners).bestA1).zOk = true ∧
    (candidate d env (mkCameraMatrix fw fh) (List.replicate 5 0) corners
      (find_best_pose d env g fw fh corners).bestA1).pnpOk = true ∧
    0 < (candidate d env (mkCameraMatrix fw fh) (List.replicate 5 0) corners
      (find_best_pose d env g fw fh corners).bestA1).r22 ∧
    (candidate d env (mkCameraMatrix fw fh) (List.replicate 5 0) corners
      (find_best_pose d env g fw fh corners).bestA1).reprojErr ≤ 15 ∧
    (find_best_pose d env g fw fh corners).bestReprojErr =
      (candidate d env (mkCameraMatrix fw fh) (List.replicate 5 0) corners
        (find_best_pose d env g fw fh corners).bestA1).reprojErr := by
  rcases find_best_pose_good d env g fw fh corners with ⟨hinit, _⟩ | ⟨hz, hmem, herr, _⟩
  · exact absurd (congrArg SelState.a1 hinit) hne
  · have hg := candidate_zOk_gates d env (mkCameraMatrix fw fh) (List.replicate 5 0) corners _ hz
    exact ⟨by simpa using hmem, hz, hg.1, hg.2.1, hg.2.2, herr⟩

unseal Rat.add Rat.sub Rat.mul Rat.inv in
/-- Witness for C1 at the one-by-one detector with the always-converging
environment: index 0 is selected and its gates hold. -/
theorem C1_valid_gates_witness :
    (find_best_pose d1 envGood gSmall 64 48 corners1).bestA1 ≠ -1 ∧
    (((find_best_pose d1 envGood gSmall 64 48 corners1).bestA1 = 0 ∨
        (find_best_pose d1 envGood gSmall 64 48 corners1).bestA1 = 1 ∨
        (find_best_pose d1 envGood gSmall 64 48 corners1).bestA1 = 2 ∨
        (find_best_pose d1 envGood gSmall 64 48 corners1).bestA1 = 3) ∧
      (candidate d1 envGood (mkCameraMatrix 64 48) (List.replicate 5 0) corners1
        (find_best_pose d1 envGood gSmall 64 48 corners1).bestA1).zOk = true ∧
      (candidate d1 envGood (mkCameraMatrix 64 48) (List.replicate 5 0) corners1
        (find_best_pose d1 envGood gSmall 64 48 corners1).bestA1).pnpOk = true ∧
      0 < (candidate d1 envGood (mkCameraMatrix 64 48) (List.replicate 5 0) corners1
        (find_best_pose d1 envGood gSmall 64 48 corners1).bestA1).r22 ∧
      (candidate d1 envGood (mkCameraMatrix 64 48) (List.replicate 5 0) corners1
        (find_best_pose d1 envGood gSmall 64 48 corners1).bestA1).reprojErr ≤ 15 ∧
      (find_best_pose d1 envGood gSmall 64 48 corners1).bestReprojErr =
        (candidate d1 envGood (mkCameraMatrix 64 48) (List.replicate 5 0) corners1
          (find_best_pose d1 envGood gSmall 64 48 corners1).bestA1).reprojErr) :=
  ⟨by decide, C1_valid_gates d1 envGood gSmall 64 48 corners1 (by decide)⟩

set_option maxRecDepth 8000 in
unseal Rat.add Rat.sub Rat.mul Rat.inv in
/-- Counterexample to C1 as stated: in the boundary environment the mean
reprojection error of candidate 0 is exactly 15 pixels, which is not
strictly below 15, yet candidate 0 is selected (the source rejects only
errors strictly above 15.0). -/
theorem C1_boundary_counterexample :
    (find_best_pose d7 envBoundary gBig 100 100 corners49).bestA1 = 0 ∧
    (candidate d7 envBoundary (mkCameraMatrix 100 100) (List.replicate 5 0) corners49 0).zOk =
      true ∧
    (candidate d7 envBoundary (mkCameraMatrix 100 100) (List.replicate 5 0) corners49
      0).reprojErr = 15 ∧
    ¬ (candidate d7 envBoundary (mkCameraMatrix 100 100) (List.replicate 5 0) corners49
      0).reprojErr < 15 := by
  refine ⟨?_, ?_, ?_, ?_⟩ <;> decide

/-- A min-fold never exceeds its starting accumulator. -/
theorem foldl_min_le_init (l : List ℚ) (M : ℚ) : l.foldl min M ≤ M := by
  induction l generalizing M with
  | nil => exact le_refl M
  | cons a t ih => exact le_trans (ih (min M a)) (min_le_left M a)

/-- A min-fold is a lower bound of the list. -/
theorem foldl_min_le_mem (l : List ℚ) (M : ℚ) : ∀ q ∈ l, l.foldl min M ≤ q := by
  induction l generalizing M with
  | nil =>
    intro q hq
    exact absurd hq (List.not_mem_nil q)
  | cons a t ih =>
    intro q hq
    rcases List.mem_cons.mp hq with rfl | hq2
    · exact le_trans (foldl_min_le_init t (min M q)) (min_le_right M q)
    · exact ih (min M a) q hq2

/-- A min-fold returns its starting accumulator or a list element. -/
theorem foldl_min_cases (l : List ℚ) (M : ℚ) : l.foldl min M = M ∨ l.foldl min M ∈ l := by
  induction l generalizing M with
  | nil => exact Or.inl rfl
  | cons a t ih =>
    rcases ih (min M a) with h | h
    · rcases min_cases M a with ⟨hm, _⟩ | ⟨hm, _⟩
      · exact Or.inl (by rw [List.foldl_cons, h, hm])
      · exact Or.inr (by rw [List.foldl_cons, h, hm]; simp)
    · exact Or.inr (by rw [List.foldl_cons]; simp [h])

unseal Rat.add Rat.sub Rat.mul Rat.inv in
/-- C4 (amended): with 8-bit brightness (every sampled mean at most 255),
find_a1_candidates returns, when at least one outer position is in bounds,
exactly the indices of in-bounds positions whose mean brightness is strictly
below every in-bounds mean plus 10 (equivalently, strictly within 10 of the
minimum in-bounds brightness); when no outer position is in bounds it
returns all four indices 0, 1, 2, 3 (each sentinel 1e6 entry is strictly
below the sentinel minimum plus 10), not the empty set. -/
theorem C4_candidates_characterization (d : Chessboard) (g : GrayEnv) (corners : List Point)
    (hb : ∀ p : Point, g.mean5 p ≤ 255) :
    ((∀ p ∈ outer_corners d corners, ¬ inBounds g p) →
      find_a1_candidates d g corners = [0, 1, 2, 3]) ∧
    ((∃ p ∈ outer_corners d corners, inBounds g p) →
      ∀ i : ℕ, i < 4 →
        (i ∈ find_a1_candidates d g corners ↔
          inBounds g ((outer_corners d corners).getD i ((0:ℚ), (0:ℚ))) ∧
          ∀ j : ℕ, j < 4 → inBounds g ((outer_corners d corners).getD j ((0:ℚ), (0:ℚ))) →
            g.mean5 ((outer_corners d corners).getD i ((0:ℚ), (0:ℚ))) <
              g.mean5 ((outer_corners d corners).getD j ((0:ℚ), (0:ℚ))) + 10)) := by
  obtain ⟨p0, p1, p2, p3, ho⟩ :
      ∃ a b c e, outer_corners d corners = [a, b, c, e] := ⟨_, _, _, _, rfl⟩
  have hv : outer_vals d g corners =
      [if inBounds g p0 then g.mean5 p0 else 1000000,
       if inBounds g p1 then g.mean5 p1 else 1000000,
       if inBounds g p2 then g.mean5 p2 else 1000000,
       if inBounds g p3 then g.mean5 p3 else 1000000] := by
    unfold outer_vals
    rw [ho]
    rfl
  have hfc : find_a1_candidates d g corners =
      (List.range 4).filter fun i =>
        (outer_vals d g corners).getD i 1000000 <
          (outer_vals d g corners).foldl min 1000000 + 10 := rfl
  have hval_eq : ∀ i : ℕ, i < 4 →
      (outer_vals d g corners).getD i 1000000 =
        if inBounds g ([p0, p1, p2, p3].getD i ((0:ℚ), (0:ℚ))) then
          g.mean5 ([p0, p1, p2, p3].getD i ((0:ℚ), (0:ℚ))) else 1000000 := by
    intro i hi
    rw [hv]
    interval_cases i <;> rfl
  have hval_mem : ∀ j : ℕ, j < 4 →
      (outer_vals d g corners).getD j 1000000 ∈ outer_vals d g corners := by
    intro j hj
    have hlen : j < (outer_vals d g corners).length := by
      rw [hv]
      simpa using hj
    rw [List.getD_eq_getElem _ _ hlen]
    exact List.getElem_mem _
  rw [ho]
  constructor
  · intro hall
    have e0 : (if inBounds g p0 then g.mean5 p0 else 1000000) = 1000000 :=
      if_neg (hall p0 (by simp))
    have e1 : (if inBounds g p1 then g.mean5 p1 else 1000000) = 1000000 :=
      if_neg (hall p1 (by simp))
    have e2 : (if inBounds g p2 then g.mean5 p2 else 1000000) = 1000000 :=
      if_neg (hall p2 (by simp))
    have e3 : (if inBounds g p3 then g.mean5 p3 else 1000000) = 1000000 :=
      if_neg (hall p3 (by simp))
    rw [hfc, hv, e0, e1, e2, e3]
    decide
  · intro hex i hi
    obtain ⟨q, hqmem, hqin⟩ := hex
    have hqv : (if inBounds g q then g.mean5 q else 1000000) ∈ outer_vals d g corners := by
      rw [hv]
      simp only [List.mem_cons, List.not_mem_nil, or_false] at hqmem
      rcases hqmem with rfl | rfl | rfl | rfl <;> simp
    have hm255 : (outer_vals d g corners).foldl min 1000000 ≤ 255 := by
      have h1 := foldl_min_le_mem (outer_vals d g corners) 1000000 _ hqv
      rw [if_pos hqin] at h1
      exact le_trans h1 (hb q)
    have hattain : ∃ q2 ∈ [p0, p1, p2, p3], inBounds g q2 ∧
        (outer_vals d g corners).foldl min 1000000 = g.mean5 q2 := by
      rcases foldl_min_cases (outer_vals d g corners) 1000000 with hM | hmem2
      · exfalso
        rw [hM] at hm255
        norm_num at hm255
      · rw [hv] at hmem2 hm255
        simp only [List.mem_cons, List.not_mem_nil, or_false] at hmem2
        rcases hmem2 with h | h | h | h
        · by_cases hbb : inBounds g p0
          · exact ⟨p0, by simp, hbb, by rw [hv, h, if_pos hbb]⟩
          · exfalso
            rw [h, if_neg hbb] at hm255
            norm_num at hm255
        · by_cases hbb : inBounds g p1
          · exact ⟨p1, by simp, hbb, by rw [hv, h, if_pos hbb]⟩
          · exfalso
            rw [h, if_neg hbb] at hm255
            norm_num at hm255
        · by_cases hbb : inBounds g p2
          · exact ⟨p2, by simp, hbb, by rw [hv, h, if_pos hbb]⟩
          · exfalso
            rw [h, if_neg hbb] at hm255
            norm_num at hm255
        · by_cases hbb : inBounds g p3
          · exact ⟨p3, by simp, hbb, by rw [hv, h, if_pos hbb]⟩
          · exfalso
            rw [h, if_neg hbb] at hm255
            norm_num at hm255
    have hmemiff : i ∈ find_a1_candidates d g corners ↔
        (outer_vals d g corners).getD i 1000000 <
          (outer_vals d g corners).foldl min 1000000 + 10 := by
      rw [hfc]
      simp [List.mem_filter, List.mem_range, hi]
    rw [hmemiff]
    constructor
    · intro hlt
      by_cases hbi : inBounds g ([p0, p1, p2, p3].getD i ((0:ℚ), (0:ℚ)))
      · refine ⟨hbi, fun j hj hbj => ?_⟩
        have hvj : (outer_vals d g corners).getD j 1000000 =
            g.mean5 ([p0, p1, p2, p3].getD j ((0:ℚ), (0:ℚ))) := by
          rw [hval_eq j hj, if_pos hbj]
        have hmle : (outer_vals d g corners).foldl min 1000000 ≤
            g.mean5 ([p0, p1, p2, p3].getD j ((0:ℚ), (0:ℚ))) := by
          rw [← hvj]
          exact foldl_min_le_mem _ _ _ (hval_mem j hj)
        rw [hval_eq i hi, if_pos hbi] at hlt
        linarith
      · exfalso
        rw [hval_eq i hi, if_neg hbi] at hlt
        linarith
    · rintro ⟨hbi, hforall⟩
      rw [hval_eq i hi, if_pos hbi]
      obtain ⟨q2, hq2mem, hq2in, hq2eq⟩ := hattain
      have hidx : ∃ j : ℕ, j < 4 ∧ [p0, p1, p2, p3].getD j ((0:ℚ), (0:ℚ)) = q2 := by
        simp only [List.mem_cons, List.not_mem_nil, or_false] at hq2mem
        rcases hq2mem with rfl | rfl | rfl | rfl
        exacts [⟨0, by norm_num, rfl⟩, ⟨1, by norm_num, rfl⟩,
          ⟨2, by norm_num, rfl⟩, ⟨3, by norm_num, rfl⟩]
      obtain ⟨j, hj4, hjq⟩ := hidx
      have h := hforall j hj4 (by rw [hjq]; exact hq2in)
      rw [hjq, ← hq2eq] at h
      exact h

unseal Rat.add Rat.sub Rat.mul Rat.inv in
/-- Witness for C4 at the shifted 7x7 grid inside a 100 by 100 image of
uniform brightness: all four positions are in bounds and index 0 satisfies
the characterization. -/
theorem C4_candidates_characterization_witness :
    (∀ p : Point, gC4.mean5 p ≤ 255) ∧
    (∃ p ∈ outer_corners d7 cornersShifted, inBounds gC4 p) ∧
    (0 ∈ find_a1_candidates d7 gC4 cornersShifted ↔
      inBounds gC4 ((outer_corners d7 cornersShifted).getD 0 ((0:ℚ), (0:ℚ))) ∧
      ∀ j : ℕ, j < 4 →
        inBounds gC4 ((outer_corners d7 cornersShifted).getD j ((0:ℚ), (0:ℚ))) →
        gC4.mean5 ((outer_corners d7 cornersShifted).getD 0 ((0:ℚ), (0:ℚ))) <
          gC4.mean5 ((outer_corners d7 cornersShifted).getD j ((0:ℚ), (0:ℚ))) + 10) := by
  have hb : ∀ p : Point, gC4.mean5 p ≤ 255 := by
    intro p
    norm_num [gC4]
  exact ⟨hb, by decide,
    (C4_candidates_characterization d7 gC4 cornersShifted hb).2 (by decide) 0 (by norm_num)⟩

set_option maxRecDepth 8000 in
unseal Rat.add Rat.sub Rat.mul Rat.inv in
/-- Counterexample to C4 as stated: on a 4 by 4 image none of the four
extrapolated outer corners of the 7x7 grid passes the bounds test, and
find_a1_candidates returns all four indices, not the empty set. -/
theorem C4_no_inbounds_counterexample :
    (∀ p ∈ outer_corners d7 corners49, ¬ inBounds gTiny p) ∧
    find_a1_candidates d7 gTiny corners49 = [0, 1, 2, 3] ∧
    find_a1_candidates d7 gTiny corners49 ≠ [] := by
  refine ⟨by decide, by decide, by decide⟩

end Checkmate
